import Mathlib

/-!
Verification development for the ESR-System firmware (an embedded audio
playback appliance).  The definitions below are shallow embeddings of the
Python sources:

  - Firmware/hardware_controller.py : the viper fixed-point Q15 scaler and
    the play_audio control flow;
  - Firmware/wav_file_player.py     : RawFilePlayer, a triple-buffered
    cyclic raw-PCM streamer;
  - Firmware/network_controller.py  : the /play mailbox of handle_request
    and the WiFi retry/backoff loop of connect_wifi and server_loop;
  - Firmware/main.py                : the audio-side main loop marking
    playback idle.

Machine integers are modelled as Nat and Int; the 32-bit wraparound of the
viper code is made explicit through wrap32.  Code that can raise a Python
exception is modelled with Option (none = the exception propagates).
-/

namespace ESR

/-! ### Control mailbox (network_controller.py and main.py)

The shared state guarded by play_request_lock: the audio_playing flag and
the two single-slot request cells. -/

/-- A play request as stored by the /play handler (duration and volume are
Python floats, modelled as rationals). -/
structure PlayReq where
  duration : ℚ
  volume : ℚ
deriving DecidableEq

/-- The lock-guarded shared state of WiFiController (network_controller.py
lines 24-31): the audio_playing flag and the play/gain request slots. -/
structure Mailbox where
  audio_playing : Bool
  play_request : Option PlayReq
  gain_request : Option Nat
deriving DecidableEq

/-- The response produced by the /play branch of handle_request: a 200 with
a success body echoing the parameters, or a 409 conflict. -/
inductive PlayResp where
  | success (duration volume : ℚ)
  | conflict409
deriving DecidableEq

/-- Whether a response is the success response. -/
def PlayResp.accepted : PlayResp → Bool
  | .success _ _ => true
  | .conflict409 => false

/-- The /play branch of WiFiController.handle_request (network_controller.py
lines 188-213).  A missing duration parameter defaults to 5.0 and a missing
volume parameter defaults to 0.5 (line 190-191); there is no range check on
either value.  Under the lock: if audio_playing, answer 409 and leave the
state untouched; otherwise store the request and set audio_playing. -/
def handle_play (mb : Mailbox) (duration_param volume_param : Option ℚ) :
    PlayResp × Mailbox :=
  let duration := duration_param.getD 5
  let volume := volume_param.getD (1/2)
  if mb.audio_playing then
    (PlayResp.conflict409, mb)
  else
    (PlayResp.success duration volume,
     { mb with play_request := some ⟨duration, volume⟩, audio_playing := true })

/-- The finally block of the audio main loop (main.py lines 69-72): under
the lock, audio_playing is reset to false after every playback. -/
def mark_idle (mb : Mailbox) : Mailbox :=
  { mb with audio_playing := false }

/-- Python int() truncation toward zero, as used on floats. -/
def pyInt (x : ℚ) : ℤ :=
  if 0 ≤ x then ⌊x⌋ else ⌈x⌉

/-- hardware_controller.py line 123: vol_q15 = int(volume * 32767). -/
def volumeToQ15 (volume : ℚ) : ℤ :=
  pyInt (volume * 32767)

/-! ### Fixed-point Q15 scaler (_viper_scale16, hardware_controller.py
lines 8-33)

The viper code runs on 32-bit machine integers; wrap32 makes that explicit.
Every byte loaded through ptr8 is in 0..255. -/

/-- Reduction of an unbounded integer to the 32-bit two's-complement value
the viper code actually holds. -/
def wrap32 (x : ℤ) : ℤ :=
  (x + 2 ^ 31) % 2 ^ 32 - 2 ^ 31

/-- The clamp of lines 24-28: saturate to the signed 16-bit range. -/
def clampS16 (x : ℤ) : ℤ :=
  if x < -32768 then -32768 else if x > 32767 then 32767 else x

/-- Lines 14-21 of _viper_scale16: assemble a little-endian 16-bit word from
two bytes and convert it to a signed value. -/
def decodeS16 (lo hi : ℕ) : ℤ :=
  let raw := lo ||| (hi <<< 8)
  if raw &&& 0x8000 ≠ 0 then (raw : ℤ) - 0x10000 else (raw : ℤ)

/-- The body of the _viper_scale16 loop for one sample (lines 13-32):
decode, multiply by vol_q15 in 32-bit arithmetic, arithmetic-shift right by
15 (floor division by 2^15), clamp to the signed 16-bit range, and re-encode
the low 16 bits little-endian. -/
def scaleSample (vol_q15 : ℤ) (lo hi : ℕ) : ℕ × ℕ :=
  let s := decodeS16 lo hi
  let s1 := wrap32 (s * vol_q15) / 32768
  let s2 := clampS16 s1
  -- v = s & 0xFFFF: the low 16 bits of the two's-complement representation
  let v : ℕ := (s2 % 65536).toNat
  -- buf[off] = v & 0xFF; buf[off+1] = (v >> 8) & 0xFF
  (v &&& 0xFF, (v >>> 8) &&& 0xFF)

/-- The while loop of _viper_scale16 (lines 12-33).  The loop runs while
i < n, so exactly count = n - i iterations remain; the sample index i is
kept explicitly because it addresses the buffer at offset i * 2. -/
def scaleLoop (vol_q15 : ℤ) : List ℕ → ℕ → ℕ → List ℕ
  | buf, _, 0 => buf
  | buf, i, count + 1 =>
    let off := i * 2
    let p := scaleSample vol_q15 (buf.getD off 0) (buf.getD (off + 1) 0)
    scaleLoop vol_q15 ((buf.set off p.1).set (off + 1) p.2) (i + 1) count

/-- _viper_scale16 (hardware_controller.py lines 8-33): scale n 16-bit
little-endian samples of buf in place by vol_q15. -/
def viper_scale16 (buf : List ℕ) (n : ℕ) (vol_q15 : ℤ) : List ℕ :=
  scaleLoop vol_q15 buf 0 n

/-- The per-sample transform the specification asserts for the scaler, read
literally: clamp(round(s * q / 32768), -32768, 32767) with round to the
nearest integer. -/
def roundScaleSpec (s q : ℤ) : ℤ :=
  clampS16 (round ((s * q : ℚ) / 32768))

/-! ### RawFilePlayer (wav_file_player.py)

The backing file is modelled by the list of its bytes; data_size is its
length.  Python operations that raise (the modulo by a zero data_size in
_read_chunk and generate_buffer) are modelled with Option. -/

/-- The state of a RawFilePlayer: the file content plus the fields set up by
__init__ (lines 10-35) and mutated by generate_buffer. -/
structure PlayerState where
  data : List ℕ
  frame_size : ℕ
  byte_position : ℕ
  buffers : List (List ℕ)
  current : ℕ
  buf_bytes : ℕ
deriving DecidableEq

/-- RawFilePlayer.__init__ (wav_file_player.py lines 10-35).  The file is
opened and its size recorded; frame_size = (bits_per_sample // 8) * channels.
No validation of the file size is performed anywhere in the constructor. -/
def RawFilePlayer.init (data : List ℕ) (bits_per_sample channels : ℕ) :
    PlayerState :=
  { data := data
    frame_size := bits_per_sample / 8 * channels
    byte_position := 0
    buffers := [[], [], []]
    current := 0
    buf_bytes := 0 }

/-- The while loop of _read_chunk (lines 47-53): while the chunk is short of
size, read min(data_size, need) bytes from the start of the file and append
them; stop early only if the file yields nothing. -/
def refillLoop (data : List ℕ) (size : ℕ) (chunk : List ℕ) : List ℕ :=
  if h : chunk.length < size then
    let need := size - chunk.length
    let piece := data.take (min data.length need)
    if hp : piece = [] then chunk
    else refillLoop data size (chunk ++ piece)
  else chunk
termination_by size - chunk.length
decreasing_by
  have hp1 : List.take (data.length ⊓ (size - chunk.length)) data ≠ [] := hp
  have hp2 : 0 < (List.take (data.length ⊓ (size - chunk.length)) data).length :=
    List.length_pos.mpr hp1
  simp only [List.length_append]
  omega

/-- The body of _read_chunk for a nonempty file: normalize pos modulo the
file size, read up to size bytes from there (lines 44-45), then run the
wrap-around loop. -/
def readChunkCore (data : List ℕ) (pos size : ℕ) : List ℕ :=
  refillLoop data size ((data.drop (pos % data.length)).take size)

/-- RawFilePlayer._read_chunk (lines 37-54).  When data_size = 0 the very
first statement, pos %= self.data_size, raises ZeroDivisionError; this is
the none case. -/
def read_chunk (data : List ℕ) (pos size : ℕ) : Option (List ℕ) :=
  if data.length = 0 then none
  else some (readChunkCore data pos size)

/-- The refill offset computed at line 75 of generate_buffer:
(byte_position + 2 * num_bytes) % data_size. -/
def refillTarget (st : PlayerState) (desired_frames : ℕ) : ℕ :=
  (st.byte_position + 2 * (desired_frames * st.frame_size)) % st.data.length

/-- RawFilePlayer.generate_buffer (lines 56-82).  Returns the buffer served
for this call together with the successor state.  When data_size = 0 every
path reaches a modulo by zero (line 66 or line 75) or _read_chunk, so the
call raises: the none case.  current always stays in 0..2, so the getD and
set never see an out-of-range index. -/
def generate_buffer (st : PlayerState) (desired_frames : ℕ) :
    Option (List ℕ × PlayerState) :=
  if st.data.length = 0 then none
  else
    let num_bytes := desired_frames * st.frame_size
    -- lines 63-68: on the first call or a size change, refill all three
    -- buffers at offsets byte_position + i * num_bytes and reset current
    let st1 :=
      if st.buf_bytes ≠ num_bytes then
        { st with
          buf_bytes := num_bytes
          buffers :=
            [readChunkCore st.data ((st.byte_position + 0 * num_bytes) % st.data.length) num_bytes,
             readChunkCore st.data ((st.byte_position + 1 * num_bytes) % st.data.length) num_bytes,
             readChunkCore st.data ((st.byte_position + 2 * num_bytes) % st.data.length) num_bytes]
          current := 0 }
      else st
    -- line 71: the view handed back is of the current buffer
    let mv := st1.buffers.getD st1.current []
    -- lines 73-76: schedule the refill of the buffer two slots ahead
    let refill_idx := (st1.current + 2) % 3
    let st2 := { st1 with
      buffers := st1.buffers.set refill_idx
        (readChunkCore st1.data (refillTarget st1 desired_frames) num_bytes) }
    -- lines 78-80: advance position and index
    some (mv,
      { st2 with
        byte_position := (st2.byte_position + num_bytes) % st2.data.length
        current := (st2.current + 1) % 3 })

/-- The player state after k successive generate_buffer calls with a fixed
frame count (none if any call raised). -/
def genSteps (st : PlayerState) (desired_frames : ℕ) : ℕ → Option PlayerState
  | 0 => some st
  | k + 1 =>
    match genSteps st desired_frames k with
    | none => none
    | some s => (generate_buffer s desired_frames).map Prod.snd

/-- The buffer returned by the (k+1)-st generate_buffer call (0-indexed k)
in a run of calls with a fixed frame count. -/
def genOutput (st : PlayerState) (desired_frames : ℕ) (k : ℕ) :
    Option (List ℕ) :=
  match genSteps st desired_frames k with
  | none => none
  | some s => (generate_buffer s desired_frames).map Prod.fst

/-- The file bytes starting at offset start, taken cyclically modulo the
file length: the contents the specification says a served buffer must
carry. -/
def cyclicRead (data : List ℕ) (start n : ℕ) : List ℕ :=
  (List.range n).map fun j => data.getD ((start + j) % data.length) 0

/-! ### Control flow of HardwareController.play_audio (hardware_controller.py
lines 110-207)

What matters for the cleanup claims is the order of the externally visible
hardware actions and which of them sit inside the try/except/finally.  The
pre-fill loop over four buffers (lines 145-154) runs after enable_audio
(line 138) but BEFORE the try statement (line 161); the steady-state loop
runs inside the try, whose except clauses swallow KeyboardInterrupt and any
other exception and whose finally calls disable_audio (lines 202-207). -/

/-- The externally visible hardware actions of play_audio. -/
inductive AudioOp where
  | enable
  | write (k : ℕ)
  | disable
deriving DecidableEq

/-- Outcome of a play_audio call: the actions performed, and whether an
exception propagated out of the call. -/
structure PlayRun where
  ops : List AudioOp
  raised : Bool
deriving DecidableEq

/-- A run of consecutive buffer writes k = start, start+1, ...; fails k
means the k-th generate_buffer/scale/i2s.write step raises, ending the run
with no further actions.  Returns the completed writes and whether a step
raised. -/
def writeSeq (fails : ℕ → Bool) : ℕ → ℕ → List AudioOp × Bool
  | _, 0 => ([], false)
  | start, count + 1 =>
    if fails start then ([], true)
    else
      let r := writeSeq fails (start + 1) count
      (AudioOp.write start :: r.1, r.2)

/-- Control-flow skeleton of play_audio: enable_audio, then the four
pre-fill writes (k = 0..3) outside any try, then iters steady-state writes
(k = 4, 5, ...) inside the try with except/finally.  An exception in the
pre-fill phase propagates before the try is ever entered, so disable_audio
is not reached; an exception in the steady-state loop is swallowed by the
except clauses and the finally always runs disable_audio. -/
def play_audio_run (fails : ℕ → Bool) (iters : ℕ) : PlayRun :=
  let pre := writeSeq fails 0 4
  if pre.2 then
    { ops := AudioOp.enable :: pre.1, raised := true }
  else
    let loop := writeSeq fails 4 iters
    { ops := AudioOp.enable :: (pre.1 ++ loop.1) ++ [AudioOp.disable],
      raised := false }

/-! ### WiFi association retry loop (network_controller.py)

connect_wifi (lines 72-123) is modelled under a link that never comes up:
wlan.isconnected() is false at every poll, so every attempt fails.  The
observable events are the single wlan.connect call and the sleeps. -/

/-- The reconnection parameters read from the config (lines 18-21). -/
structure NetConfig where
  max_retries : ℕ
  initial_retry_delay : ℕ
  max_retry_delay : ℕ
  backoff_factor : ℕ
deriving DecidableEq

/-- Events of the connection loop: the wlan.connect association call
(line 88) and a time.sleep_ms of the given duration (line 116). -/
inductive NetEvent where
  | connectCall
  | sleep (ms : ℕ)
deriving DecidableEq

/-- The while loop of connect_wifi (lines 84-116) on an always-failing
link.  The loop runs while retry_count < max_retries and increments
retry_count once per iteration, so remaining = max_retries - retry_count
counts the iterations left.  wlan.connect is issued only when
retry_count == 0 (lines 86-91); after the ten failed polls, retry_count is
incremented (line 104), the loop breaks if it has reached max_retries
(lines 107-109), and otherwise the delay is updated to
min(delay * backoff_factor, max_retry_delay) (line 112) and slept
(line 116). -/
def connectGo (cfg : NetConfig) : ℕ → ℕ → ℕ → List NetEvent
  | 0, _, _ => []
  | remaining + 1, retry_count, retry_delay =>
    let evs := if retry_count = 0 then [NetEvent.connectCall] else []
    if cfg.max_retries ≤ retry_count + 1 then evs
    else
      let d := min (retry_delay * cfg.backoff_factor) cfg.max_retry_delay
      evs ++ NetEvent.sleep d :: connectGo cfg remaining (retry_count + 1) d

/-- One full connect_wifi call on an always-failing link, as invoked from
server_loop: retry_count starts at 0 and retry_delay at
initial_retry_delay (lines 81-82); the call returns False at the end. -/
def connect_wifi_failed (cfg : NetConfig) : List NetEvent :=
  connectGo cfg cfg.max_retries 0 cfg.initial_retry_delay

/-- The slept delays that the code produces from a given current delay:
each is min(previous * backoff_factor, max_retry_delay). -/
def sleepsFrom (cfg : NetConfig) (delay : ℕ) : ℕ → List ℕ
  | 0 => []
  | k + 1 =>
    let d := min (delay * cfg.backoff_factor) cfg.max_retry_delay
    d :: sleepsFrom cfg d k

/-- n iterations of the reconnection loop in server_loop (lines 296-303)
on an always-failing link: each iteration calls connect_wifi afresh.
connect_wifi keeps no state between calls, so every round restarts from
retry_count = 0 and the initial delay. -/
def serverRetryLoop (cfg : NetConfig) : ℕ → List NetEvent
  | 0 => []
  | n + 1 => connect_wifi_failed cfg ++ serverRetryLoop cfg n

/-! ## Supporting lemmas for the scaler -/

/-- Assembling two bytes little-endian is plain arithmetic. -/
lemma lor_shiftLeft_eq_add {lo : ℕ} (hi : ℕ) (hlo : lo < 256) :
    lo ||| (hi <<< 8) = lo + 256 * hi := by
  have h1 : 2 ^ 8 * hi + lo = 2 ^ 8 * hi ||| lo :=
    Nat.mul_add_lt_is_or (by omega) hi
  calc lo ||| (hi <<< 8) = lo ||| hi * 2 ^ 8 := by rw [Nat.shiftLeft_eq]
    _ = 2 ^ 8 * hi ||| lo := by rw [Nat.lor_comm, Nat.mul_comm]
    _ = 2 ^ 8 * hi + lo := h1.symm
    _ = lo + 256 * hi := by omega

/-- The sign-bit test of line 18 is a plain comparison for 16-bit words. -/
lemma and_sign_bit {x : ℕ} (hx : x < 65536) :
    (x &&& 0x8000 ≠ 0) ↔ 32768 ≤ x := by
  have h1 : x &&& 2 ^ 15 = (x.testBit 15).toNat * 2 ^ 15 := Nat.and_two_pow x 15
  have h2 : x.testBit 15 = decide (x / 2 ^ 15 % 2 = 1) := Nat.testBit_to_div_mod
  have : (0x8000 : ℕ) = 2 ^ 15 := by norm_num
  rw [this, h1, h2]
  by_cases hbit : x / 2 ^ 15 % 2 = 1
  · simp only [hbit, decide_True, Bool.toNat_true]
    constructor
    · intro _; omega
    · intro _; positivity
  · simp only [hbit, decide_False, Bool.toNat_false]
    constructor
    · intro hne; omega
    · intro hge; omega

/-- Arithmetic characterization of the little-endian signed decode of
lines 14-21. -/
lemma decodeS16_eq {lo hi : ℕ} (hlo : lo < 256) (hhi : hi < 256) :
    decodeS16 lo hi =
      if lo + 256 * hi < 32768 then (lo + 256 * hi : ℤ)
      else (lo + 256 * hi : ℤ) - 65536 := by
  unfold decodeS16
  rw [lor_shiftLeft_eq_add hi hlo]
  have hx : lo + 256 * hi < 65536 := by omega
  rw [show ((0x10000 : ℤ) = 65536) from rfl]
  by_cases hge : 32768 ≤ lo + 256 * hi
  · rw [if_pos ((and_sign_bit hx).mpr hge), if_neg (by omega)]
    push_cast
    ring
  · rw [if_neg (fun hne => hge ((and_sign_bit hx).mp hne)), if_pos (by omega)]
    push_cast
    ring

/-- The decoded value of a pair of bytes is a signed 16-bit value. -/
lemma decodeS16_bounds {lo hi : ℕ} (hlo : lo < 256) (hhi : hi < 256) :
    -32768 ≤ decodeS16 lo hi ∧ decodeS16 lo hi ≤ 32767 := by
  rw [decodeS16_eq hlo hhi]
  split <;> omega

/-- Re-encoding a signed 16-bit value little-endian and decoding it gives
the value back. -/
lemma decode_encode {s2 : ℤ} (h1 : -32768 ≤ s2) (h2 : s2 ≤ 32767) :
    decodeS16 ((s2 % 65536).toNat &&& 0xFF)
      (((s2 % 65536).toNat >>> 8) &&& 0xFF) = s2 := by
  set v : ℕ := (s2 % 65536).toNat with hv
  have hvlt : v < 65536 := by omega
  have hand : ∀ x : ℕ, x &&& 0xFF = x % 256 := by
    intro x
    have := Nat.and_pow_two_sub_one_eq_mod x 8
    norm_num at this
    exact this
  have hshift : v >>> 8 = v / 256 := by
    have h8 := Nat.shiftRight_eq_div_pow v 8
    norm_num at h8
    exact h8
  rw [hand v, hshift, hand (v / 256)]
  rw [decodeS16_eq (by omega) (by omega)]
  have hsplit : v % 256 + 256 * (v / 256 % 256) = v := by omega
  rw [hsplit]
  split <;> omega

/-- The 32-bit wraparound is invisible for products that fit in 32 bits. -/
lemma wrap32_eq_self {x : ℤ} (h1 : -(2 ^ 31) ≤ x) (h2 : x < 2 ^ 31) :
    wrap32 x = x := by
  unfold wrap32
  omega

/-- The clamp output always lies in the signed 16-bit range. -/
lemma clampS16_bounds (x : ℤ) : -32768 ≤ clampS16 x ∧ clampS16 x ≤ 32767 := by
  unfold clampS16
  split <;> [omega; skip]
  split <;> omega

/-- Per-sample behaviour of the scaler for an arbitrary Q15 parameter: the
output bytes decode to the clamp of the 32-bit product shifted right. -/
lemma scaleSample_eq_any (q : ℤ) (lo hi : ℕ) :
    decodeS16 (scaleSample q lo hi).1 (scaleSample q lo hi).2 =
      clampS16 (wrap32 (decodeS16 lo hi * q) / 32768) := by
  obtain ⟨hc1, hc2⟩ := clampS16_bounds (wrap32 (decodeS16 lo hi * q) / 32768)
  exact decode_encode hc1 hc2

/-- Per-sample characterization of the scaler for volumes in the Q15 range:
the output bytes decode to the clamped floor of s * q / 2^15. -/
lemma scaleSample_eq {q : ℤ} {lo hi : ℕ} (hlo : lo < 256) (hhi : hi < 256)
    (hq0 : 0 ≤ q) (hq1 : q ≤ 32767) :
    decodeS16 (scaleSample q lo hi).1 (scaleSample q lo hi).2 =
      clampS16 (decodeS16 lo hi * q / 32768) := by
  obtain ⟨hs1, hs2⟩ := decodeS16_bounds hlo hhi
  set s := decodeS16 lo hi with hs
  have hm1 : -(2 ^ 31) ≤ s * q := by nlinarith
  have hm2 : s * q < 2 ^ 31 := by nlinarith
  rw [scaleSample_eq_any, wrap32_eq_self hm1 hm2]

/-- For any Q15 volume whatsoever, the scaler's output bytes decode to a
value saturated into the signed 16-bit range. -/
lemma scaleSample_bounds (q : ℤ) (lo hi : ℕ) :
    -32768 ≤ decodeS16 (scaleSample q lo hi).1 (scaleSample q lo hi).2 ∧
      decodeS16 (scaleSample q lo hi).1 (scaleSample q lo hi).2 ≤ 32767 := by
  rw [scaleSample_eq_any]
  exact clampS16_bounds _

/-- Reading at an index other than the one just written. -/
lemma getD_set_ne {α : Type*} (l : List α) (a d : α) {i j : ℕ} (h : i ≠ j) :
    (l.set i a).getD j d = l.getD j d := by
  simp [List.getD_eq_getElem?_getD, List.getElem?_set_ne h]

/-- Reading back the index just written. -/
lemma getD_set_self {α : Type*} (l : List α) (a d : α) {i : ℕ}
    (h : i < l.length) : (l.set i a).getD i d = a := by
  simp [List.getD_eq_getElem?_getD, List.getElem?_set_self h]

/-- An element read from a byte buffer is a byte. -/
lemma getD_lt_of_mem {buf : List ℕ} (h : ∀ b ∈ buf, b < 256) {k : ℕ}
    (hk : k < buf.length) : buf.getD k 0 < 256 := by
  rw [List.getD_eq_getElem?_getD, List.getElem?_eq_getElem hk]
  exact h _ (List.getElem_mem hk)

/-- The in-place loop never changes the buffer length. -/
lemma scaleLoop_length (q : ℤ) (count : ℕ) : ∀ (i : ℕ) (buf : List ℕ),
    (scaleLoop q buf i count).length = buf.length := by
  induction count with
  | zero => intro i buf; rfl
  | succ c IH =>
    intro i buf
    simp only [scaleLoop]
    rw [IH]
    simp

/-- Positions outside the range of samples i..i+count-1 are untouched. -/
lemma scaleLoop_untouched (q : ℤ) (count : ℕ) : ∀ (i k : ℕ) (buf : List ℕ),
    (k < i * 2 ∨ (i + count) * 2 ≤ k) →
    (scaleLoop q buf i count).getD k 0 = buf.getD k 0 := by
  induction count with
  | zero => intro i k buf _; rfl
  | succ c IH =>
    intro i k buf hk
    simp only [scaleLoop]
    rw [IH (i + 1) k _ (by omega)]
    rw [getD_set_ne _ _ _ (by omega : i * 2 + 1 ≠ k),
        getD_set_ne _ _ _ (by omega : i * 2 ≠ k)]

/-- Each sample of the output is the scaled version of the corresponding
input sample: sample j is written exactly once, from the input bytes at
offsets j*2 and j*2 + 1. -/
lemma scaleLoop_sample (q : ℤ) (count : ℕ) : ∀ (i j : ℕ) (buf : List ℕ),
    i ≤ j → j < i + count → (i + count) * 2 ≤ buf.length →
    (scaleLoop q buf i count).getD (j * 2) 0 =
      (scaleSample q (buf.getD (j * 2) 0) (buf.getD (j * 2 + 1) 0)).1 ∧
    (scaleLoop q buf i count).getD (j * 2 + 1) 0 =
      (scaleSample q (buf.getD (j * 2) 0) (buf.getD (j * 2 + 1) 0)).2 := by
  induction count with
  | zero => intro i j buf h1 h2 _; omega
  | succ c IH =>
    intro i j buf h1 h2 hlen
    simp only [scaleLoop]
    by_cases hj : j = i
    · subst hj
      constructor
      · rw [scaleLoop_untouched q c (j + 1) (j * 2) _ (Or.inl (by omega))]
        rw [getD_set_ne _ _ _ (by omega : j * 2 + 1 ≠ j * 2)]
        exact getD_set_self _ _ _ (by omega)
      · rw [scaleLoop_untouched q c (j + 1) (j * 2 + 1) _ (Or.inl (by omega))]
        exact getD_set_self _ _ _ (by simp only [List.length_set]; omega)
    · have hlen2 : (i + 1 + c) * 2 ≤
          ((buf.set (i * 2)
              (scaleSample q (buf.getD (i * 2) 0) (buf.getD (i * 2 + 1) 0)).1).set
            (i * 2 + 1)
            (scaleSample q (buf.getD (i * 2) 0) (buf.getD (i * 2 + 1) 0)).2).length := by
        simp only [List.length_set]
        omega
      obtain ⟨A, B⟩ := IH (i + 1) j _ (by omega) (by omega) hlen2
      have hr1 : ((buf.set (i * 2)
              (scaleSample q (buf.getD (i * 2) 0) (buf.getD (i * 2 + 1) 0)).1).set
            (i * 2 + 1)
            (scaleSample q (buf.getD (i * 2) 0) (buf.getD (i * 2 + 1) 0)).2).getD
          (j * 2) 0 = buf.getD (j * 2) 0 := by
        rw [getD_set_ne _ _ _ (by omega : i * 2 + 1 ≠ j * 2),
            getD_set_ne _ _ _ (by omega : i * 2 ≠ j * 2)]
      have hr2 : ((buf.set (i * 2)
              (scaleSample q (buf.getD (i * 2) 0) (buf.getD (i * 2 + 1) 0)).1).set
            (i * 2 + 1)
            (scaleSample q (buf.getD (i * 2) 0) (buf.getD (i * 2 + 1) 0)).2).getD
          (j * 2 + 1) 0 = buf.getD (j * 2 + 1) 0 := by
        rw [getD_set_ne _ _ _ (by omega : i * 2 + 1 ≠ j * 2 + 1),
            getD_set_ne _ _ _ (by omega : i * 2 ≠ j * 2 + 1)]
      rw [hr1, hr2] at A B
      exact ⟨A, B⟩

/-- Characterization of _viper_scale16 on a buffer of at least n samples:
the length is preserved and each of the first n samples is transformed by
scaleSample. -/
lemma viper_scale16_spec (buf : List ℕ) (n : ℕ) (q : ℤ)
    (hn : n * 2 ≤ buf.length) :
    (viper_scale16 buf n q).length = buf.length ∧
    ∀ j, j < n →
      (viper_scale16 buf n q).getD (j * 2) 0 =
        (scaleSample q (buf.getD (j * 2) 0) (buf.getD (j * 2 + 1) 0)).1 ∧
      (viper_scale16 buf n q).getD (j * 2 + 1) 0 =
        (scaleSample q (buf.getD (j * 2) 0) (buf.getD (j * 2 + 1) 0)).2 :=
  ⟨scaleLoop_length q n 0 buf,
   fun j hj => scaleLoop_sample q n 0 j buf (by omega) (by omega) (by omega)⟩

/-- Scaling by the full-scale Q15 factor 32767 is multiplication by
32767/32768 rounded toward minus infinity: it decrements every strictly
positive sample and maps -32768 to -32767. -/
lemma q15_full_scale {s : ℤ} (h1 : -32768 ≤ s) (h2 : s ≤ 32767) :
    clampS16 (s * 32767 / 32768) =
      if 1 ≤ s then s - 1 else if s = -32768 then -32767 else s := by
  unfold clampS16
  rw [if_neg (by omega : ¬s * 32767 / 32768 < -32768),
      if_neg (by omega : ¬s * 32767 / 32768 > 32767)]
  by_cases hs : 1 ≤ s
  · rw [if_pos hs]
    omega
  · rw [if_neg hs]
    by_cases hz : s = -32768
    · rw [if_pos hz]
      omega
    · rw [if_neg hz]
      omega

/-! ## Claim C1 -/

/-- C1 as stated is false: the scaler floors the quotient s * q / 32768
(arithmetic shift right), it does not round it to the nearest integer.  On
the single-sample buffer [1, 0] (sample s = 1) with q = 24576 the quotient
is 24576 / 32768 = 0.75; the claimed clamp(round(0.75)) is 1, but the code
produces the sample 0 (bytes [0, 0]). -/
theorem C1_cex_floor_not_round :
    viper_scale16 [1, 0] 1 24576 = [0, 0] ∧
    decodeS16 0 0 = 0 ∧
    decodeS16 1 0 = 1 ∧
    roundScaleSpec 1 24576 = 1 := by
  refine ⟨by decide, by decide, by decide, ?_⟩
  unfold roundScaleSpec clampS16
  norm_num [round_eq]

/-- C1 (amended): for every byte buffer interpreted as little-endian signed
16-bit samples and every volume q in [0, 32767], _viper_scale16 replaces
each input sample s with clamp(floor(s * q / 32768), -32768, 32767) (the
arithmetic shift right by 15), re-encoded little-endian; in particular no
two's-complement wraparound occurs at s = -32768, q = 32767 (the result is
-32767, inside the representable range). -/
theorem C1_scale16_clamped_floor (buf : List ℕ) (n : ℕ) (q : ℤ)
    (hbytes : ∀ b ∈ buf, b < 256) (hn : n * 2 ≤ buf.length)
    (hq0 : 0 ≤ q) (hq1 : q ≤ 32767) :
    (viper_scale16 buf n q).length = buf.length ∧
    ∀ j, j < n →
      decodeS16 ((viper_scale16 buf n q).getD (j * 2) 0)
          ((viper_scale16 buf n q).getD (j * 2 + 1) 0) =
        clampS16 (decodeS16 (buf.getD (j * 2) 0) (buf.getD (j * 2 + 1) 0)
          * q / 32768) := by
  obtain ⟨hlen, hsamp⟩ := viper_scale16_spec buf n q hn
  refine ⟨hlen, fun j hj => ?_⟩
  obtain ⟨A, B⟩ := hsamp j hj
  rw [A, B]
  exact scaleSample_eq (getD_lt_of_mem hbytes (by omega))
    (getD_lt_of_mem hbytes (by omega)) hq0 hq1

/-- C1 witness: the amended claim evaluated at the extreme buffer [0, 128]
(the single sample -32768) with q = 32767. -/
theorem C1_scale16_clamped_floor_witness :
    ((∀ b ∈ ([0, 128] : List ℕ), b < 256) ∧ 1 * 2 ≤ ([0, 128] : List ℕ).length ∧
      (0 : ℤ) ≤ 32767 ∧ (32767 : ℤ) ≤ 32767) ∧
    ((viper_scale16 [0, 128] 1 32767).length = ([0, 128] : List ℕ).length ∧
      ∀ j, j < 1 →
        decodeS16 ((viper_scale16 [0, 128] 1 32767).getD (j * 2) 0)
            ((viper_scale16 [0, 128] 1 32767).getD (j * 2 + 1) 0) =
          clampS16 (decodeS16 (([0, 128] : List ℕ).getD (j * 2) 0)
            (([0, 128] : List ℕ).getD (j * 2 + 1) 0) * 32767 / 32768)) :=
  ⟨⟨by decide, by decide, by decide, by decide⟩,
   C1_scale16_clamped_floor [0, 128] 1 32767 (by decide) (by decide)
     (by decide) (by decide)⟩

/-! ## Claim C5 -/

/-- C5 as stated is false: with volume_q15 = 32767 the scaler is not the
identity.  On the buffer [1, 0] (the single sample 1) it produces [0, 0]
(the sample 0): floor(1 * 32767 / 32768) = 0. -/
theorem C5_cex_full_volume_changes_sample :
    viper_scale16 [1, 0] 1 32767 = [0, 0] ∧ ([0, 0] : List ℕ) ≠ [1, 0] :=
  ⟨by decide, by decide⟩

/-- C5 (amended): invoking _viper_scale16 with volume_q15 = 32767 is not
the identity: each sample s is mapped to floor(s * 32767 / 32768), i.e.
samples in [-32767, 0] are unchanged, strictly positive samples become
s - 1, and -32768 becomes -32767.  (This is why the caller skips the call
entirely when vol_q15 == 32767.) -/
theorem C5_full_volume_decrements_positive (buf : List ℕ) (n : ℕ)
    (hbytes : ∀ b ∈ buf, b < 256) (hn : n * 2 ≤ buf.length) :
    (viper_scale16 buf n 32767).length = buf.length ∧
    ∀ j, j < n →
      decodeS16 ((viper_scale16 buf n 32767).getD (j * 2) 0)
          ((viper_scale16 buf n 32767).getD (j * 2 + 1) 0) =
        (if 1 ≤ decodeS16 (buf.getD (j * 2) 0) (buf.getD (j * 2 + 1) 0) then
          decodeS16 (buf.getD (j * 2) 0) (buf.getD (j * 2 + 1) 0) - 1
         else if decodeS16 (buf.getD (j * 2) 0) (buf.getD (j * 2 + 1) 0) = -32768
           then -32767
         else decodeS16 (buf.getD (j * 2) 0) (buf.getD (j * 2 + 1) 0)) := by
  obtain ⟨hlen, hsamp⟩ := viper_scale16_spec buf n 32767 hn
  refine ⟨hlen, fun j hj => ?_⟩
  obtain ⟨A, B⟩ := hsamp j hj
  rw [A, B]
  have hlo := getD_lt_of_mem hbytes (show j * 2 < buf.length by omega)
  have hhi := getD_lt_of_mem hbytes (show j * 2 + 1 < buf.length by omega)
  obtain ⟨hs1, hs2⟩ := decodeS16_bounds hlo hhi
  rw [scaleSample_eq hlo hhi (by omega) (by omega)]
  exact q15_full_scale hs1 hs2

/-- C5 witness: the amended claim on the buffer [2, 0] (the sample 2, which
full-scale Q15 maps to 1). -/
theorem C5_full_volume_decrements_positive_witness :
    ((∀ b ∈ ([2, 0] : List ℕ), b < 256) ∧ 1 * 2 ≤ ([2, 0] : List ℕ).length) ∧
    ((viper_scale16 [2, 0] 1 32767).length = ([2, 0] : List ℕ).length ∧
      ∀ j, j < 1 →
        decodeS16 ((viper_scale16 [2, 0] 1 32767).getD (j * 2) 0)
            ((viper_scale16 [2, 0] 1 32767).getD (j * 2 + 1) 0) =
          (if 1 ≤ decodeS16 (([2, 0] : List ℕ).getD (j * 2) 0)
              (([2, 0] : List ℕ).getD (j * 2 + 1) 0) then
            decodeS16 (([2, 0] : List ℕ).getD (j * 2) 0)
              (([2, 0] : List ℕ).getD (j * 2 + 1) 0) - 1
           else if decodeS16 (([2, 0] : List ℕ).getD (j * 2) 0)
              (([2, 0] : List ℕ).getD (j * 2 + 1) 0) = -32768 then -32767
           else decodeS16 (([2, 0] : List ℕ).getD (j * 2) 0)
              (([2, 0] : List ℕ).getD (j * 2 + 1) 0))) :=
  ⟨⟨by decide, by decide⟩,
   C5_full_volume_decrements_positive [2, 0] 1 (by decide) (by decide)⟩

/-! ## Claim C2 -/

/-- C2: the play mailbox accepts a request iff audio_playing is false at
call time; a /play posted while playing is answered with the 409 conflict
and leaves the whole mailbox (in particular the pending play request)
unchanged; and after mark_idle a subsequent /play is accepted again, so
there is no permanent lockout. -/
theorem C2_post_play_iff_idle (mb : Mailbox) (d v : Option ℚ) :
    ((handle_play mb d v).1.accepted = !mb.audio_playing) ∧
    (mb.audio_playing = true → (handle_play mb d v).2 = mb) ∧
    ((handle_play (mark_idle mb) d v).1.accepted = true) := by
  refine ⟨?_, ?_, ?_⟩ <;>
    cases hmb : mb.audio_playing <;>
      simp [handle_play, mark_idle, PlayResp.accepted, hmb]

/-- C2 witness: a busy mailbox rejects and is left unchanged. -/
theorem C2_post_play_iff_idle_witness :
    (Mailbox.audio_playing ⟨true, some ⟨1, 1⟩, none⟩ = true) ∧
    (handle_play ⟨true, some ⟨1, 1⟩, none⟩ none none).2 =
      (⟨true, some ⟨1, 1⟩, none⟩ : Mailbox) :=
  ⟨rfl, (C2_post_play_iff_idle ⟨true, some ⟨1, 1⟩, none⟩ none none).2.1 rfl⟩

/-! ## Claim C9 -/

/-- C9: a /play request with the duration or volume parameter absent is not
rejected: the handler substitutes duration = 5.0 and volume = 0.5, so /play
with no parameters, received while idle, is accepted and posts a 5-second,
half-volume play request. -/
theorem C9_play_defaults (mb : Mailbox) (h : mb.audio_playing = false) :
    handle_play mb none none =
      (PlayResp.success 5 (1 / 2),
       { mb with play_request := some ⟨5, 1 / 2⟩, audio_playing := true }) := by
  simp [handle_play, h]

/-- C9 witness: the defaulting /play on a concrete idle mailbox. -/
theorem C9_play_defaults_witness :
    (Mailbox.audio_playing ⟨false, none, none⟩ = false) ∧
    handle_play ⟨false, none, none⟩ none none =
      (PlayResp.success 5 (1 / 2), ⟨true, some ⟨5, 1 / 2⟩, none⟩) :=
  ⟨rfl, C9_play_defaults ⟨false, none, none⟩ rfl⟩

/-! ## Claim C10 -/

/-- C10: the /play handler performs no range validation on the volume:
every parsed volume value v, including v > 1 and v < 0, is accepted with a
success response while idle and stored unchanged in the play request; the
conversion to Q15 is int(volume * 32767) by definition; and for every Q15
factor whatsoever (in particular out-of-range ones) the scaler's output
samples are saturated into [-32768, 32767]. -/
theorem C10_volume_not_validated (mb : Mailbox) (d v : ℚ) (q : ℤ)
    (lo hi : ℕ) (hidle : mb.audio_playing = false) :
    (handle_play mb (some d) (some v)).1 = PlayResp.success d v ∧
    (handle_play mb (some d) (some v)).2.play_request = some ⟨d, v⟩ ∧
    volumeToQ15 v = pyInt (v * 32767) ∧
    (-32768 ≤ decodeS16 (scaleSample q lo hi).1 (scaleSample q lo hi).2 ∧
      decodeS16 (scaleSample q lo hi).1 (scaleSample q lo hi).2 ≤ 32767) := by
  refine ⟨?_, ?_, rfl, scaleSample_bounds q lo hi⟩ <;>
    simp [handle_play, hidle]

/-- C10 witness: volume 2 (outside [0, 1]) accepted on an idle mailbox, and
the saturation bound at the Q15 factor int(2 * 32767) = 65534 on the
extreme sample bytes. -/
theorem C10_volume_not_validated_witness :
    (Mailbox.audio_playing ⟨false, none, none⟩ = false) ∧
    ((handle_play ⟨false, none, none⟩ (some 5) (some 2)).1 =
        PlayResp.success 5 2 ∧
      (handle_play ⟨false, none, none⟩ (some 5) (some 2)).2.play_request =
        some ⟨5, 2⟩ ∧
      volumeToQ15 2 = pyInt (2 * 32767) ∧
      (-32768 ≤ decodeS16 (scaleSample 65534 255 127).1
          (scaleSample 65534 255 127).2 ∧
        decodeS16 (scaleSample 65534 255 127).1
          (scaleSample 65534 255 127).2 ≤ 32767)) :=
  ⟨rfl, C10_volume_not_validated ⟨false, none, none⟩ 5 2 65534 255 127 rfl⟩

/-! ## Supporting lemmas for the play_audio control flow -/

/-- A write run raises exactly when one of its count steps fails. -/
lemma writeSeq_raised (fails : ℕ → Bool) : ∀ (count start : ℕ),
    ((writeSeq fails start count).2 = true ↔
      ∃ j, j < count ∧ fails (start + j) = true) := by
  intro count
  induction count with
  | zero =>
    intro start
    simp [writeSeq]
  | succ c IH =>
    intro start
    by_cases hf : fails start = true
    · simp only [writeSeq, hf, if_pos]
      exact ⟨fun _ => ⟨0, by omega, by simpa using hf⟩, fun _ => trivial⟩
    · simp only [writeSeq, hf, if_neg, Bool.false_eq_true, not_false_iff]
      rw [IH (start + 1)]
      constructor
      · rintro ⟨j, hj, h⟩
        exact ⟨j + 1, by omega, by rwa [show start + (j + 1) = start + 1 + j by omega]⟩
      · rintro ⟨j, hj, h⟩
        cases j with
        | zero => exact absurd (by simpa using h) hf
        | succ j' =>
          exact ⟨j', by omega, by rwa [show start + 1 + j' = start + (j' + 1) by omega]⟩

/-- A write run performs only write actions. -/
lemma writeSeq_ops_write (fails : ℕ → Bool) : ∀ (count start : ℕ),
    ∀ op ∈ (writeSeq fails start count).1, ∃ k, op = AudioOp.write k := by
  intro count
  induction count with
  | zero =>
    intro start op hop
    simp [writeSeq] at hop
  | succ c IH =>
    intro start op hop
    by_cases hf : fails start = true
    · simp [writeSeq, hf] at hop
    · simp only [writeSeq, hf, if_neg, Bool.false_eq_true, not_false_iff,
        List.mem_cons] at hop
      rcases hop with rfl | hop
      · exact ⟨start, rfl⟩
      · exact IH (start + 1) op hop

/-! ## Claim C4 -/

/-- C4 as stated is false: an error raised during the four-buffer pre-fill
phase (here at the third pre-fill write, k = 2) propagates out of
play_audio without disable_audio being called, because the pre-fill loop
(lines 145-154) runs before the try/finally of lines 161-207. -/
theorem C4_cex_prefill_error_skips_disable :
    (play_audio_run (fun k => k == 2) 5).raised = true ∧
    AudioOp.disable ∉ (play_audio_run (fun k => k == 2) 5).ops := by
  decide

/-- C4 (amended): play_audio calls disable_audio on normal completion, on
interruption and on any error raised inside the steady-state loop (the
except clauses swallow the exception, so nothing propagates and the finally
runs); but an error raised during the four-buffer pre-fill phase, which
precedes the try statement, propagates without disable_audio being called.
Formally: a run propagates an exception iff some pre-fill write fails, and
disable_audio is executed iff no exception propagates. -/
theorem C4_disable_iff_no_prefill_error (fails : ℕ → Bool) (iters : ℕ) :
    ((play_audio_run fails iters).raised = true ↔
      ∃ j, j < 4 ∧ fails j = true) ∧
    (AudioOp.disable ∈ (play_audio_run fails iters).ops ↔
      (play_audio_run fails iters).raised = false) := by
  by_cases hp : (writeSeq fails 0 4).2 = true
  · have hex : ∃ j, j < 4 ∧ fails j = true := by
      have := (writeSeq_raised fails 4 0).mp hp
      simpa using this
    simp only [play_audio_run, hp, if_pos]
    refine ⟨⟨fun _ => hex, fun _ => trivial⟩, ?_⟩
    constructor
    · intro hmem
      rcases List.mem_cons.mp hmem with h | h
      · exact absurd h.symm (by simp)
      · obtain ⟨k, hk⟩ := writeSeq_ops_write fails 4 0 _ h
        exact absurd hk (by simp)
    · intro h
      exact absurd h (by simp)
  · have hnex : ¬∃ j, j < 4 ∧ fails j = true := by
      intro hex
      exact hp ((writeSeq_raised fails 4 0).mpr (by simpa using hex))
    simp only [play_audio_run, hp, if_neg, Bool.false_eq_true, not_false_iff]
    refine ⟨⟨fun h => absurd h (by simp), fun h => absurd h hnex⟩, ?_⟩
    simp

/-! ## Supporting lemmas for the WiFi backoff -/

/-- The first slept delay produced from a current delay. -/
lemma sleepsFrom_head (cfg : NetConfig) (d : ℕ) {k : ℕ} (hk : 1 ≤ k) :
    (sleepsFrom cfg d k).getD 0 0 =
      min (d * cfg.backoff_factor) cfg.max_retry_delay := by
  cases k with
  | zero => omega
  | succ k' => rfl

/-- Each slept delay is obtained from its predecessor by the backoff
update min(previous * factor, max_retry_delay). -/
lemma sleepsFrom_getD_succ (cfg : NetConfig) : ∀ (k : ℕ) (d i : ℕ),
    i + 1 < k →
    (sleepsFrom cfg d k).getD (i + 1) 0 =
      min ((sleepsFrom cfg d k).getD i 0 * cfg.backoff_factor)
        cfg.max_retry_delay := by
  intro k
  induction k with
  | zero => intro d i h; omega
  | succ k' IH =>
    intro d i h
    cases i with
    | zero =>
      simp only [sleepsFrom]
      rw [List.getD_cons_succ, List.getD_cons_zero]
      exact sleepsFrom_head cfg _ (by omega)
    | succ i' =>
      simp only [sleepsFrom]
      rw [List.getD_cons_succ, List.getD_cons_succ]
      exact IH _ i' (by omega)

/-- The retry loop from any attempt count of at least 1 emits exactly the
backoff sleeps: no further wlan.connect call is ever issued. -/
lemma connectGo_ge_one (cfg : NetConfig) : ∀ (rem rc delay : ℕ),
    1 ≤ rc → rem + rc = cfg.max_retries →
    connectGo cfg rem rc delay =
      (sleepsFrom cfg delay (cfg.max_retries - 1 - rc)).map NetEvent.sleep := by
  intro rem
  induction rem with
  | zero =>
    intro rc delay h1 h2
    rw [show cfg.max_retries - 1 - rc = 0 by omega]
    rfl
  | succ r IH =>
    intro rc delay h1 h2
    simp only [connectGo]
    rw [if_neg (by omega : ¬rc = 0)]
    by_cases hb : cfg.max_retries ≤ rc + 1
    · rw [if_pos hb, show cfg.max_retries - 1 - rc = 0 by omega]
      rfl
    · rw [if_neg hb]
      rw [IH (rc + 1) _ (by omega) (by omega)]
      rw [show cfg.max_retries - 1 - rc = (cfg.max_retries - 1 - (rc + 1)) + 1 by omega]
      simp only [sleepsFrom, List.map_cons, List.nil_append]

/-- One failed connect_wifi call is one wlan.connect followed by the
capped-backoff sleeps. -/
lemma connect_wifi_failed_eq (cfg : NetConfig) (h : 1 ≤ cfg.max_retries) :
    connect_wifi_failed cfg =
      NetEvent.connectCall ::
        (sleepsFrom cfg cfg.initial_retry_delay (cfg.max_retries - 1)).map
          NetEvent.sleep := by
  unfold connect_wifi_failed
  obtain ⟨m, hm⟩ : ∃ m, cfg.max_retries = m + 1 := ⟨cfg.max_retries - 1, by omega⟩
  rw [hm]
  by_cases hb : cfg.max_retries ≤ 0 + 1
  · have hm0 : m = 0 := by omega
    subst hm0
    simp only [connectGo, if_pos hb]
    simp [sleepsFrom]
  · simp only [connectGo, if_neg hb, eq_self_iff_true, if_true, Nat.zero_add]
    rw [connectGo_ge_one cfg m 1 _ (by omega) (by omega)]
    rw [show m + 1 - 1 = (cfg.max_retries - 1 - 1) + 1 by omega]
    simp [sleepsFrom]

/-! ## Claim C8 -/

/-- C8 as stated is false on two points, shown here on the configuration
max_retries = 3, initial_retry_delay = 500, max_retry_delay = 30000,
backoff_factor = 2 with a link that never comes up.  The loop makes three
failed attempts but issues only ONE wlan.connect association call (the
claim requires one per retry), and the slept delays are 1000 and 2000:
the claimed first delay, delay_0 = initial_retry_delay = 500, is never
slept because the code multiplies before its first sleep. -/
theorem C8_cex_single_connect_and_shifted_delays :
    connect_wifi_failed ⟨3, 500, 30000, 2⟩ =
      [NetEvent.connectCall, NetEvent.sleep 1000, NetEvent.sleep 2000] ∧
    (connect_wifi_failed ⟨3, 500, 30000, 2⟩).count NetEvent.connectCall = 1 ∧
    NetEvent.sleep 500 ∉ connect_wifi_failed ⟨3, 500, 30000, 2⟩ := by
  decide

/-- C8 (amended): starting from disconnected, each connect_wifi invocation
issues exactly one association attempt (wlan.connect is called only while
retry_count == 0; later retries only re-poll the link), and the slept
delays follow d_0 = min(initial_retry_delay * backoff_factor,
max_retry_delay), d_{i+1} = min(d_i * backoff_factor, max_retry_delay);
after max_retries consecutive failures connect_wifi returns and the server
loop invokes it afresh, so the attempt counter restarts from 0 with the
initial delay and the process retries indefinitely (n rounds of the
reconnection loop are n identical copies of the same event trace). -/
theorem C8_backoff_shape (cfg : NetConfig) (h : 1 ≤ cfg.max_retries) :
    connect_wifi_failed cfg =
      NetEvent.connectCall ::
        (sleepsFrom cfg cfg.initial_retry_delay (cfg.max_retries - 1)).map
          NetEvent.sleep ∧
    (connect_wifi_failed cfg).count NetEvent.connectCall = 1 ∧
    (2 ≤ cfg.max_retries →
      (sleepsFrom cfg cfg.initial_retry_delay (cfg.max_retries - 1)).getD 0 0 =
        min (cfg.initial_retry_delay * cfg.backoff_factor)
          cfg.max_retry_delay) ∧
    (∀ i, i + 1 < cfg.max_retries - 1 →
      (sleepsFrom cfg cfg.initial_retry_delay (cfg.max_retries - 1)).getD
          (i + 1) 0 =
        min ((sleepsFrom cfg cfg.initial_retry_delay
            (cfg.max_retries - 1)).getD i 0 * cfg.backoff_factor)
          cfg.max_retry_delay) ∧
    (∀ n, serverRetryLoop cfg n =
      (List.replicate n (connect_wifi_failed cfg)).flatten) := by
  refine ⟨connect_wifi_failed_eq cfg h, ?_, ?_, ?_, ?_⟩
  · rw [connect_wifi_failed_eq cfg h]
    rw [List.count_cons_self]
    have hz : (List.map NetEvent.sleep
        (sleepsFrom cfg cfg.initial_retry_delay (cfg.max_retries - 1))).count
        NetEvent.connectCall = 0 := by
      rw [List.count_eq_zero]
      intro hmem
      obtain ⟨ms, _, habs⟩ := List.mem_map.mp hmem
      exact NetEvent.noConfusion habs
    rw [hz]
  · intro h2
    exact sleepsFrom_head cfg _ (by omega)
  · intro i hi
    exact sleepsFrom_getD_succ cfg _ _ i hi
  · intro n
    induction n with
    | zero => rfl
    | succ n' IH =>
      simp only [serverRetryLoop, IH, List.replicate_succ, List.flatten_cons]

/-- C8 witness: the amended backoff shape on the concrete configuration
max_retries = 3, initial delay 500 ms, cap 30000 ms, factor 2. -/
theorem C8_backoff_shape_witness :
    1 ≤ (3 : ℕ) ∧
    connect_wifi_failed ⟨3, 500, 30000, 2⟩ =
      NetEvent.connectCall ::
        (sleepsFrom ⟨3, 500, 30000, 2⟩ 500 (3 - 1)).map NetEvent.sleep :=
  ⟨by decide, (C8_backoff_shape ⟨3, 500, 30000, 2⟩ (by decide)).1⟩

/-! ## Supporting lemmas for the PCM streamer -/

/-- Length of a cyclic read. -/
lemma cyclicRead_length (data : List ℕ) (start n : ℕ) :
    (cyclicRead data start n).length = n := by
  simp [cyclicRead]

/-- A read of zero bytes is empty. -/
lemma readChunkCore_zero (data : List ℕ) (pos : ℕ) :
    readChunkCore data pos 0 = [] := by
  unfold readChunkCore
  rw [refillLoop]
  simp

/-- The wrap-around loop returns exactly size bytes whenever the file is
nonempty, whatever the requested size. -/
lemma refillLoop_length (data : List ℕ) (size : ℕ) (hL : 0 < data.length) :
    ∀ chunk : List ℕ, chunk.length ≤ size →
      (refillLoop data size chunk).length = size := by
  suffices H : ∀ n (chunk : List ℕ), size - chunk.length ≤ n →
      chunk.length ≤ size → (refillLoop data size chunk).length = size by
    intro chunk hc
    exact H (size - chunk.length) chunk le_rfl hc
  intro n
  induction n with
  | zero =>
    intro chunk hn hc
    rw [refillLoop, dif_neg (by omega : ¬chunk.length < size)]
    omega
  | succ n IH =>
    intro chunk hn hc
    by_cases h : chunk.length < size
    · rw [refillLoop, dif_pos h]
      simp only []
      have hne : data.take (min data.length (size - chunk.length)) ≠ [] := by
        rw [Ne, List.take_eq_nil_iff]
        push_neg
        constructor
        · omega
        · exact List.ne_nil_of_length_pos hL
      rw [dif_neg hne]
      have hplen : (data.take (min data.length (size - chunk.length))).length =
          min data.length (size - chunk.length) := by
        rw [List.length_take]
        omega
      apply IH
      · simp only [List.length_append, hplen]
        omega
      · simp only [List.length_append, hplen]
        omega
    · rw [refillLoop, dif_neg h]
      omega

/-- A read that stays inside the file is the corresponding slice. -/
lemma take_drop_eq_cyclic (data : List ℕ) (p size : ℕ) (hp : p < data.length)
    (hsize : size ≤ data.length - p) :
    (data.drop p).take size = cyclicRead data p size := by
  apply List.ext_getElem
  · simp [cyclicRead]
    omega
  · intro i h1 h2
    have hi : i < size := by
      simp at h1
      omega
    have hpi : p + i < data.length := by omega
    rw [List.getElem_take, List.getElem_drop]
    simp only [cyclicRead, List.getElem_map, List.getElem_range]
    rw [Nat.mod_eq_of_lt hpi]
    rw [List.getD_eq_getElem?_getD, List.getElem?_eq_getElem hpi]
    rfl

/-- Characterization of _read_chunk's result for reads of at most one file
length: the bytes from the normalized offset, wrapping once past the end of
the file. -/
lemma readChunkCore_eq (data : List ℕ) (pos size : ℕ) (hL : 0 < data.length)
    (hsize : size ≤ data.length) :
    readChunkCore data pos size =
      cyclicRead data (pos % data.length) size := by
  set L := data.length with hLdef
  set p := pos % data.length with hpdef
  have hp : p < L := Nat.mod_lt _ hL
  unfold readChunkCore
  by_cases hcase : size ≤ L - p
  · -- no wrap: the first read already returns size bytes
    have hlen : ((data.drop p).take size).length = size := by
      simp only [List.length_take, List.length_drop]
      omega
    rw [refillLoop, dif_neg (by omega : ¬((data.drop p).take size).length < size)]
    exact take_drop_eq_cyclic data p size hp hcase
  · -- wrap: the tail of the file, then one piece from the start
    have hc0 : (data.drop p).take size = data.drop p := by
      apply List.take_of_length_le
      simp only [List.length_drop]
      omega
    have hc0len : (data.drop p).length = L - p := by
      simp
    have hneed : size - (L - p) ≤ L := by omega
    have hneedpos : 0 < size - (L - p) := by omega
    rw [hc0]
    rw [refillLoop, dif_pos (by omega : (data.drop p).length < size)]
    simp only []
    have hmin : min data.length (size - (data.drop p).length) = size - (L - p) := by
      simp only [List.length_drop]
      omega
    rw [hc0len]
    have hne : data.take (min data.length (size - (L - p))) ≠ [] := by
      rw [Ne, List.take_eq_nil_iff]
      push_neg
      exact ⟨by omega, List.ne_nil_of_length_pos hL⟩
    rw [dif_neg hne]
    have htake_min : min data.length (size - (L - p)) = size - (L - p) := by omega
    rw [htake_min]
    have hlen2 : (data.drop p ++ data.take (size - (L - p))).length = size := by
      simp only [List.length_append, List.length_drop, List.length_take]
      omega
    rw [refillLoop, dif_neg (by omega : ¬(data.drop p ++ data.take (size - (L - p))).length < size)]
    -- now the pointwise comparison with the cyclic read
    apply List.ext_getElem
    · rw [hlen2, cyclicRead_length]
    · intro i h1 h2
      have hi : i < size := by omega
      rw [List.getElem_append]
      simp only [cyclicRead, List.getElem_map, List.getElem_range]
      by_cases hsplit : i < (data.drop p).length
      · rw [dif_pos hsplit]
        have hpi : p + i < L := by
          simp only [List.length_drop] at hsplit
          omega
        rw [List.getElem_drop]
        rw [Nat.mod_eq_of_lt hpi]
        rw [List.getD_eq_getElem?_getD, List.getElem?_eq_getElem hpi]
        rfl
      · rw [dif_neg hsplit]
        simp only [List.length_drop] at hsplit
        have hwrap : (p + i) % L = p + i - L := by
          rw [Nat.mod_eq_sub_mod (by omega : L ≤ p + i)]
          exact Nat.mod_eq_of_lt (by omega)
        have hidx : p + i - L < L := by omega
        rw [List.getElem_take]
        simp only [List.length_drop]
        rw [hwrap]
        rw [List.getD_eq_getElem?_getD, List.getElem?_eq_getElem hidx]
        have : i - (L - p) = p + i - L := by omega
        simp [this]

/-- generate_buffer in the steady state (buf_bytes already matches the
requested size): serve the current buffer, refill two slots ahead at the
refill target, advance position and index. -/
lemma generate_buffer_steady (st : PlayerState) (frames : ℕ)
    (hL : ¬st.data.length = 0) (hbuf : st.buf_bytes = frames * st.frame_size) :
    generate_buffer st frames =
      some (st.buffers.getD st.current [],
        { st with
          buffers := st.buffers.set ((st.current + 2) % 3)
            (readChunkCore st.data
              ((st.byte_position + 2 * (frames * st.frame_size)) % st.data.length)
              (frames * st.frame_size))
          byte_position :=
            (st.byte_position + frames * st.frame_size) % st.data.length
          current := (st.current + 1) % 3 }) := by
  simp [generate_buffer, refillTarget, hL, hbuf]

/-- generate_buffer on the first call (or a frame-size change): all three
buffers are refilled synchronously, the first is served, and the refill two
slots ahead rewrites slot 2 with the value it already holds. -/
lemma generate_buffer_resize (st : PlayerState) (frames : ℕ)
    (hL : ¬st.data.length = 0) (hbuf : ¬st.buf_bytes = frames * st.frame_size) :
    generate_buffer st frames =
      some (readChunkCore st.data (st.byte_position % st.data.length)
          (frames * st.frame_size),
        { st with
          buf_bytes := frames * st.frame_size
          buffers :=
            [readChunkCore st.data (st.byte_position % st.data.length)
               (frames * st.frame_size),
             readChunkCore st.data
               ((st.byte_position + 1 * (frames * st.frame_size)) % st.data.length)
               (frames * st.frame_size),
             readChunkCore st.data
               ((st.byte_position + 2 * (frames * st.frame_size)) % st.data.length)
               (frames * st.frame_size)]
          byte_position :=
            (st.byte_position + frames * st.frame_size) % st.data.length
          current := 1 }) := by
  simp [generate_buffer, refillTarget, hL, hbuf]

/-- The triple-buffer invariant: after k calls with a fixed frame count,
the cursor sits at k buffer-sizes into the file (mod its length), current
cycles mod 3, and the slots to be served next (current and current + 1)
hold the file chunks at offsets k and k + 1 buffer-sizes. -/
lemma genSteps_invariant (data : List ℕ) (bits channels frames : ℕ)
    (hL : 0 < data.length) :
    ∀ k, 1 ≤ k →
    ∃ st, genSteps (RawFilePlayer.init data bits channels) frames k = some st ∧
      st.data = data ∧
      st.frame_size = bits / 8 * channels ∧
      st.buf_bytes = frames * (bits / 8 * channels) ∧
      st.byte_position = k * (frames * (bits / 8 * channels)) % data.length ∧
      st.current = k % 3 ∧
      st.buffers.length = 3 ∧
      st.buffers.getD (k % 3) [] =
        readChunkCore data (k * (frames * (bits / 8 * channels)) % data.length)
          (frames * (bits / 8 * channels)) ∧
      st.buffers.getD ((k + 1) % 3) [] =
        readChunkCore data
          ((k + 1) * (frames * (bits / 8 * channels)) % data.length)
          (frames * (bits / 8 * channels)) := by
  have hL0 : ¬data.length = 0 := by omega
  set s := frames * (bits / 8 * channels) with hs
  intro k hk
  induction k with
  | zero => omega
  | succ k IH =>
    by_cases hk1 : k = 0
    · -- the first call
      subst hk1
      have hinit : genSteps (RawFilePlayer.init data bits channels) frames 1 =
          (generate_buffer (RawFilePlayer.init data bits channels) frames).map
            Prod.snd := rfl
      by_cases hz : s = 0
      · -- zero-sized buffers: the resize branch is not taken
        have hstep := generate_buffer_steady (RawFilePlayer.init data bits channels)
          frames hL0 (by simp [RawFilePlayer.init, ← hs, hz])
        refine ⟨_, by rw [hinit, hstep]; rfl, ?_⟩
        simp only [RawFilePlayer.init, ← hs, hz]
        simp [readChunkCore_zero, List.getD]
      · -- the resize branch fills all three buffers
        have hstep := generate_buffer_resize (RawFilePlayer.init data bits channels)
          frames hL0 (by simp [RawFilePlayer.init, ← hs]; omega)
        refine ⟨_, by rw [hinit, hstep]; rfl, ?_⟩
        simp only [RawFilePlayer.init, ← hs]
        simp [List.getD]
    · -- steady state
      obtain ⟨st, hgen, hdata, hfs, hbuf, hpos, hcur, hblen, hserve, hnext⟩ :=
        IH (by omega)
      have hstep := generate_buffer_steady st frames
        (by rw [hdata]; exact hL0) (by rw [hbuf, hfs, hs])
      have hgen1 : genSteps (RawFilePlayer.init data bits channels) frames (k + 1) =
          (generate_buffer st frames).map Prod.snd := by
        simp [genSteps, hgen]
      refine ⟨_, by rw [hgen1, hstep]; rfl, ?_⟩
      dsimp only
      have hfs2 : frames * st.frame_size = s := by rw [hfs, hs]
      have hidx12 : (k + 1) % 3 ≠ (st.current + 2) % 3 := by
        rw [hcur]; omega
      have htarget : (st.byte_position + 2 * (frames * st.frame_size)) %
          st.data.length = (k + 2) * s % data.length := by
        rw [hfs2, hdata, hpos, Nat.mod_add_mod]
        congr 1
        ring
      refine ⟨hdata, hfs, hbuf, ?_, ?_, by simp [hblen], ?_, ?_⟩
      · rw [hfs2, hdata, hpos, Nat.mod_add_mod]
        congr 1
        ring
      · rw [hcur]
        omega
      · -- the slot served next call, (k+1) % 3, was not overwritten
        rw [getD_set_ne _ _ _ (fun h => hidx12 h.symm)]
        exact hnext
      · -- the slot just refilled, (k+2) % 3, holds the chunk at (k+2)*s
        rw [show (k + 1 + 1) % 3 = (st.current + 2) % 3 by rw [hcur]; omega]
        rw [getD_set_self _ _ _ (by rw [hblen]; omega)]
        rw [htarget, hdata, hfs2]

/-- The buffer served by the (k+1)-st call is the file chunk at offset
k buffer-sizes into the file, modulo the file length. -/
lemma genOutput_eq (data : List ℕ) (bits channels frames : ℕ)
    (hL : 0 < data.length) :
    ∀ k, genOutput (RawFilePlayer.init data bits channels) frames k =
      some (readChunkCore data
        (k * (frames * (bits / 8 * channels)) % data.length)
        (frames * (bits / 8 * channels))) := by
  have hL0 : ¬data.length = 0 := by omega
  set s := frames * (bits / 8 * channels) with hs
  intro k
  cases k with
  | zero =>
    have h0 : genOutput (RawFilePlayer.init data bits channels) frames 0 =
        (generate_buffer (RawFilePlayer.init data bits channels) frames).map
          Prod.fst := rfl
    by_cases hz : s = 0
    · have hstep := generate_buffer_steady (RawFilePlayer.init data bits channels)
        frames hL0 (by simp [RawFilePlayer.init, ← hs, hz])
      rw [h0, hstep]
      simp [RawFilePlayer.init, ← hs, hz, readChunkCore_zero, List.getD]
    · have hstep := generate_buffer_resize (RawFilePlayer.init data bits channels)
        frames hL0 (by simp [RawFilePlayer.init, ← hs]; omega)
      rw [h0, hstep]
      simp [RawFilePlayer.init, ← hs]
  | succ k =>
    obtain ⟨st, hgen, hdata, hfs, hbuf, hpos, hcur, hblen, hserve, hnext⟩ :=
      genSteps_invariant data bits channels frames hL (k + 1) (by omega)
    have hstep := generate_buffer_steady st frames
      (by rw [hdata]; exact hL0) (by rw [hbuf, hfs])
    have h1 : genOutput (RawFilePlayer.init data bits channels) frames (k + 1) =
        (generate_buffer st frames).map Prod.fst := by
      simp [genOutput, hgen]
    have hfst : (generate_buffer st frames).map Prod.fst =
        some (st.buffers.getD st.current []) := by
      rw [hstep]
      rfl
    rw [h1, hfst, hcur, hserve]

/-! ## Claim C3 -/

/-- C3: for every PCM file of positive length L and every run of
generate_buffer calls with a fixed frame count whose buffer byte size is at
most L, the k-th returned buffer (k = 0, 1, 2, ...) is exactly the file
bytes starting at offset k * size taken cyclically modulo L; hence the
concatenation of the returned buffers reproduces the file content
cyclically with no data loss across the end-of-file wrap-around. -/
theorem C3_stream_reproduces_file_cyclically (data : List ℕ)
    (bits channels frames k : ℕ) (hL : 0 < data.length)
    (hsize : frames * (bits / 8 * channels) ≤ data.length) :
    genOutput (RawFilePlayer.init data bits channels) frames k =
      some (cyclicRead data
        (k * (frames * (bits / 8 * channels)) % data.length)
        (frames * (bits / 8 * channels))) := by
  rw [genOutput_eq data bits channels frames hL k]
  rw [readChunkCore_eq data _ _ hL hsize]
  rw [Nat.mod_eq_of_lt (Nat.mod_lt _ hL)]

/-- C3 witness: a 4-byte file streamed in 2-byte buffers; the 6th call
returns the chunk at offset 5 * 2 mod 4 = 2. -/
theorem C3_stream_reproduces_file_cyclically_witness :
    (0 < ([0, 1, 2, 3] : List ℕ).length ∧
      1 * (16 / 8 * 1) ≤ ([0, 1, 2, 3] : List ℕ).length) ∧
    genOutput (RawFilePlayer.init [0, 1, 2, 3] 16 1) 1 5 =
      some (cyclicRead [0, 1, 2, 3]
        (5 * (1 * (16 / 8 * 1)) % ([0, 1, 2, 3] : List ℕ).length)
        (1 * (16 / 8 * 1))) :=
  ⟨⟨by decide, by decide⟩,
   C3_stream_reproduces_file_cyclically [0, 1, 2, 3] 16 1 1 5 (by decide)
     (by decide)⟩

/-! ## Claim C7 -/

/-- C7 as stated is false: constructing the player over an empty file does
NOT fail — __init__ (wav_file_player.py lines 26-35) contains no
total_bytes > 0 validation, so RawFilePlayer.init is a total function and
yields an ordinary state with data_size = 0 — and the failure instead
surfaces on the first read: _read_chunk raises ZeroDivisionError at
pos %= self.data_size (the none case), as does generate_buffer. -/
theorem C7_cex_empty_file_constructs :
    RawFilePlayer.init [] 16 2 =
      { data := [], frame_size := 4, byte_position := 0,
        buffers := [[], [], []], current := 0, buf_bytes := 0 } ∧
    read_chunk (RawFilePlayer.init [] 16 2).data 0 1 = none ∧
    generate_buffer (RawFilePlayer.init [] 16 2) 1 = none :=
  ⟨rfl, rfl, rfl⟩

/-- C7 (amended): construction never validates the file size (an empty
file fails only at the first read, as the counterexample shows); for every
file of length at least one byte, a read of ANY offset and ANY length
succeeds and returns exactly the requested number of bytes. -/
theorem C7_reads_return_requested_bytes (data : List ℕ) (pos size : ℕ)
    (hL : 1 ≤ data.length) :
    ∃ out, read_chunk data pos size = some out ∧ out.length = size := by
  refine ⟨readChunkCore data pos size, ?_, ?_⟩
  · unfold read_chunk
    rw [if_neg (by omega)]
  · unfold readChunkCore
    apply refillLoop_length data size (by omega)
    simp only [List.length_take, List.length_drop]
    omega

/-- C7 witness: a 2-byte file read at offset 5 for 3 bytes. -/
theorem C7_reads_return_requested_bytes_witness :
    1 ≤ ([7, 8] : List ℕ).length ∧
    ∃ out, read_chunk [7, 8] 5 3 = some out ∧ out.length = 3 :=
  ⟨by decide, C7_reads_return_requested_bytes [7, 8] 5 3 (by decide)⟩

/-! ## Claim C6 -/

/-- C6 as stated is false: with 480-byte frames, frame_count = 100 gives
48000-byte buffers (not 4800), so on a 48000-byte asset every buffer starts
at offset 0 and after three calls the cursor is 3 * 48000 mod 48000 = 0,
not the claimed 14400. -/
theorem C6_cex_cursor_is_zero :
    (genSteps (RawFilePlayer.init (List.replicate 48000 0) 1920 2) 100 3).map
        PlayerState.byte_position = some 0 ∧
    (genSteps (RawFilePlayer.init (List.replicate 48000 0) 1920 2) 100 3).map
        PlayerState.byte_position ≠ some 14400 := by
  obtain ⟨st, hgen, _, _, _, hpos, _⟩ :=
    genSteps_invariant (List.replicate 48000 0) 1920 2 100
      (by rw [List.length_replicate]; omega) 3 (by omega)
  have h0 : st.byte_position = 0 := by
    rw [hpos]
    simp only [List.length_replicate]
  constructor
  · rw [hgen, Option.map_some', h0]
  · rw [hgen, Option.map_some', h0]
    intro habs
    exact absurd (Option.some.inj habs) (by omega)

/-- C6 (amended): on a 48000-byte asset with 480-byte frames the stated
offsets require 4800-byte buffers, i.e. frame_count = 10 (the number 100 in
the claim is inconsistent with its own parenthetical): then the first three
calls return the chunks at offsets 0, 4800 and 9600, at the fourth call the
cursor is 14400 mod 48000 = 14400, and the refill scheduled two slots ahead
targets (14400 + 9600) mod 48000 = 24000. -/
theorem C6_scenario_buffers_4800 (data : List ℕ) (hlen : data.length = 48000) :
    genOutput (RawFilePlayer.init data 1920 2) 10 0 =
      some (cyclicRead data 0 4800) ∧
    genOutput (RawFilePlayer.init data 1920 2) 10 1 =
      some (cyclicRead data 4800 4800) ∧
    genOutput (RawFilePlayer.init data 1920 2) 10 2 =
      some (cyclicRead data 9600 4800) ∧
    ∃ st, genSteps (RawFilePlayer.init data 1920 2) 10 3 = some st ∧
      st.byte_position = 14400 ∧ refillTarget st 10 = 24000 := by
  have hL : 0 < data.length := by omega
  have hout : ∀ k, genOutput (RawFilePlayer.init data 1920 2) 10 k =
      some (cyclicRead data (k * 4800 % 48000) 4800) := by
    intro k
    have := genOutput_eq data 1920 2 10 hL k
    norm_num at this
    rw [this, readChunkCore_eq data _ _ hL (by omega)]
    rw [hlen]
    rw [Nat.mod_eq_of_lt (Nat.mod_lt _ (by omega))]
  obtain ⟨st, hgen, hdata, hfs, _, hpos, _⟩ :=
    genSteps_invariant data 1920 2 10 hL 3 (by omega)
  refine ⟨?_, ?_, ?_, st, hgen, ?_, ?_⟩
  · have := hout 0
    norm_num at this ⊢
    exact this
  · have := hout 1
    norm_num at this ⊢
    exact this
  · have := hout 2
    norm_num at this ⊢
    exact this
  · rw [hpos, hlen]
  · unfold refillTarget
    rw [hpos, hfs, hdata, hlen]

/-- C6 witness: the amended scenario on the all-zero 48000-byte asset. -/
theorem C6_scenario_buffers_4800_witness :
    (List.replicate 48000 0 : List ℕ).length = 48000 ∧
    ∃ st, genSteps (RawFilePlayer.init (List.replicate 48000 0) 1920 2) 10 3 =
        some st ∧ st.byte_position = 14400 ∧ refillTarget st 10 = 24000 :=
  ⟨List.length_replicate 48000 0,
   (C6_scenario_buffers_4800 (List.replicate 48000 0)
     (List.length_replicate 48000 0)).2.2.2⟩

end ESR
